import Mathlib

/-!
# Verification of the meal-planner ML recommendation engine

Shallow embedding of src/ml/recommend.py (class MealRecommendationEngine).
Python floats are modelled as rationals (`Rat`) except for the recency weight,
which uses `Real` because the source computes genuine exponentials.
Python dicts keyed by meal id are association lists; `None` is `Option.none`.
`np.argsort` is modelled as a stable ascending index sort (numpy's behaviour
on the small concrete inputs used here); `pandas.sort_values` and Python's
`list.sort` are modelled with `List.insertionSort`.
-/

namespace MealRec

/-- A catalog row of data/available_meals.csv (available_meals_df). -/
structure Meal where
  meal_id : Nat
  meal_name : String
  meal_type : String
  ingredient_count : Rat
  prep_time : Rat
  rating : Rat
  difficulty : String
deriving DecidableEq

/-- A recommendation dict emitted by one strategy: meal id and name, the
strategy-specific numeric score, the recommendation_type tag, and the rating
field that popular/hybrid candidates carry (absent for content/collaborative). -/
structure Candidate where
  meal_id : Nat
  meal_name : String
  score : Rat
  recommendation_type : String
  rating : Option Rat
deriving DecidableEq

/-- Temporal context dict; keys may be absent (context.get with default). -/
structure Ctx where
  hour : Option Rat
  day_of_week : Option String
  month : Option Rat
deriving DecidableEq

/-- One row of data/meal_history.csv. `date` is the parsed timestamp in whole
days; `none` models a timestamp `pd.to_datetime(..., errors=coerce)` turns
into NaT (unparseable). -/
structure UsageEvent where
  meal_id : Nat
  user_id : Nat
  date : Option Int
deriving DecidableEq

/-- Engine state after load_models: the model containers of
MealRecommendationEngine. Functions stand for the opaque trained models. -/
structure EngineState where
  available_meals : Option (List Meal)
  meal_usage_counts : List (Nat × Nat)
  meal_usage_scores : List (Nat × Rat)
  content_similarity_matrix : Option (List (List Rat))
  meal_ids : Option (List Nat)
  meal_names : Option (List String)
  cf_model : Option (Nat → Nat → Rat)
  cf_dataset : Option (List (Nat × Nat) × List (Nat × Nat))
  hybrid_model : Option (List Rat → Rat)
  now_hour : Rat
  now_dow : String
  now_month : Rat

/-- Association-list lookup, modelling Python dict access. -/
def alookup {A : Type} (l : List (Nat × A)) (k : Nat) : Option A :=
  (l.find? (fun p => p.1 == k)).map (fun p => p.2)

/-- self.meal_usage_scores.get(m, 0.0). -/
def usageScoreSt (st : EngineState) (m : Nat) : Rat :=
  (alookup st.meal_usage_scores m).getD 0

/-- self.meal_usage_counts.get(m, 0). -/
def usageCountSt (st : EngineState) (m : Nat) : Nat :=
  (alookup st.meal_usage_counts m).getD 0

/-- The per-row skip test `meal_type and row_type != meal_type`. -/
def mtSkip (meal_type : Option String) (t : String) : Bool :=
  match meal_type with
  | some s => t != s
  | none => false

/-- Index comparison for a stable ascending argsort of score vector s:
by value, ties by original index. -/
def idxLe (s : List Rat) (i j : Nat) : Prop :=
  s.getD i 0 < s.getD j 0 ∨ (s.getD i 0 = s.getD j 0 ∧ i ≤ j)

instance (s : List Rat) (i j : Nat) : Decidable (idxLe s i j) :=
  inferInstanceAs (Decidable (_ ∨ _))

/-- np.argsort s: index permutation sorting s ascending, stable. -/
def argsortAsc (s : List Rat) : List Nat :=
  List.insertionSort (idxLe s) (List.range s.length)

/-- Descending lexicographic preorder on (usage_score, usage_count, rating)
triples, the sort_values key of get_popular_recommendations. -/
def lexGe (a b : Rat × Nat × Rat) : Prop :=
  b.1 < a.1 ∨ (a.1 = b.1 ∧ (b.2.1 < a.2.1 ∨ (a.2.1 = b.2.1 ∧ b.2.2 ≤ a.2.2)))

instance (a b : Rat × Nat × Rat) : Decidable (lexGe a b) :=
  inferInstanceAs (Decidable (_ ∨ _))

/-- The sort key of one catalog row in get_popular_recommendations, given the
effective usage_score column (after the raw-count fallback). -/
def popKey (score : Nat → Rat) (st : EngineState) (m : Meal) : Rat × Nat × Rat :=
  (score m.meal_id, usageCountSt st m.meal_id, m.rating)

/-- MealRecommendationEngine.get_popular_recommendations. -/
def get_popular_recommendations (st : EngineState) (top_n : Nat)
    (meal_type : Option String) : List Candidate :=
  match st.available_meals with
  | none => []
  | some meals =>
    let score : Nat → Rat :=
      if (meals.map (fun m => usageScoreSt st m.meal_id)).sum = 0 ∧
          0 < (meals.map (fun m => usageCountSt st m.meal_id)).sum then
        fun mid => ((usageCountSt st mid : Nat) : Rat)
      else
        fun mid => usageScoreSt st mid
    let eligible := meals.filter (fun m => !(mtSkip meal_type m.meal_type))
    let sorted :=
      List.insertionSort (fun a b => lexGe (popKey score st a) (popKey score st b)) eligible
    (sorted.take top_n).map (fun m =>
      { meal_id := m.meal_id, meal_name := m.meal_name, score := score m.meal_id,
        recommendation_type := "popular", rating := some m.rating })

/-- Body of the per-index loop of get_content_based_recommendations:
bounds check, name lookup, similarity score, meal_type filter. -/
def contentBuild (st : EngineState) (meal_type : Option String)
    (ids : List Nat) (sims : List Rat) (idx : Nat) : Option Candidate :=
  if idx < ids.length then
    let rid := ids.getD idx 0
    let name :=
      match st.meal_names with
      | some ns => if idx < ns.length then ns.getD idx "Unknown" else "Unknown"
      | none => "Unknown"
    let cand : Candidate :=
      { meal_id := rid, meal_name := name, score := sims.getD idx 0,
        recommendation_type := "content_based", rating := none }
    match meal_type, st.available_meals with
    | some t, some meals =>
      match meals.find? (fun m => m.meal_id == rid) with
      | some m => if m.meal_type != t then none else some cand
      | none => some cand
    | _, _ => some cand
  else none

/-- np.argsort(sims)[::-1][1:top_n+1]. -/
def contentOrder (sims : List Rat) (top_n : Nat) : List Nat :=
  (((argsortAsc sims).reverse).drop 1).take top_n

/-- MealRecommendationEngine.get_content_based_recommendations. -/
def get_content_based_recommendations (st : EngineState) (meal_id : Nat)
    (top_n : Nat) (meal_type : Option String) : List Candidate :=
  match st.content_similarity_matrix with
  | none => []
  | some matrix =>
    match st.meal_ids with
    | none => []
    | some ids =>
      if meal_id ∈ ids then
        let meal_idx := ids.indexOf meal_id
        let sims := matrix.getD meal_idx []
        ((contentOrder sims top_n).filterMap (contentBuild st meal_type ids sims)).take top_n
      else []

/-- Body of the per-item loop of get_collaborative_recommendations: name
lookup against the catalog and the meal_type filter (applied only when the
item is present in the catalog). -/
def collabBuild (st : EngineState) (meal_type : Option String)
    (item_ids : List Nat) (preds : List Rat) (idx : Nat) : Option Candidate :=
  let iid := item_ids.getD idx 0
  let cand : String → Candidate := fun nm =>
    { meal_id := iid, meal_name := nm, score := preds.getD idx 0,
      recommendation_type := "collaborative_filtering", rating := none }
  match st.available_meals with
  | none => some (cand "Unknown")
  | some meals =>
    match meals.find? (fun m => m.meal_id == iid) with
    | none => some (cand "Unknown")
    | some m => if mtSkip meal_type m.meal_type then none else some (cand m.meal_name)

/-- MealRecommendationEngine.get_collaborative_recommendations.
cf_dataset is (user mapping, item mapping): external id to internal id. -/
def get_collaborative_recommendations (st : EngineState) (user_id : Nat)
    (top_n : Nat) (meal_type : Option String) : List Candidate :=
  match st.cf_model, st.cf_dataset with
  | some predict, some ds =>
    match alookup ds.1 user_id with
    | none => get_popular_recommendations st top_n meal_type
    | some uinternal =>
      let item_ids := ds.2.map (fun p => p.1)
      let preds := item_ids.map (fun iid => predict uinternal ((alookup ds.2 iid).getD 0))
      let top_items := ((argsortAsc preds).reverse).take (top_n * 2)
      (top_items.filterMap (collabBuild st meal_type item_ids preds)).take top_n
  | _, _ => []

/-- 1 if the day is a weekend day else 0. -/
def weekendFlag (d : String) : Rat :=
  if d = "saturday" ∨ d = "sunday" then 1 else 0

/-- difficulty encoding easy 1, medium 2, otherwise 3. -/
def difficultyNum (d : String) : Rat :=
  if d = "easy" then 1 else if d = "medium" then 2 else 3

/-- Pad with zeros to width n then truncate to n. -/
def padTo (n : Nat) (l : List Rat) : List Rat :=
  (l ++ List.replicate (n - l.length) 0).take n

/-- Default context built from datetime.now() when context is None. -/
def defaultContext (st : EngineState) : Ctx :=
  { hour := some st.now_hour, day_of_week := some st.now_dow, month := some st.now_month }

/-- The combined user temporal + padded meal content feature vector. -/
def hybridFeatures (ctx : Ctx) (m : Meal) : List Rat :=
  [ctx.hour.getD 18, weekendFlag (ctx.day_of_week.getD "monday"), ctx.month.getD 1]
    ++ padTo 20 [m.ingredient_count, m.prep_time, m.rating, difficultyNum m.difficulty]

/-- MealRecommendationEngine.get_hybrid_recommendations. Note the user_id
parameter, like in the source, is never read by the body. -/
def get_hybrid_recommendations (st : EngineState) (user_id : Nat)
    (context : Option Ctx) (top_n : Nat) (meal_type : Option String) : List Candidate :=
  match st.hybrid_model with
  | none => []
  | some predict =>
    match st.available_meals with
    | none => []
    | some meals =>
      let ctx := context.getD (defaultContext st)
      let recs : List Candidate :=
        (meals.filter (fun m => !(mtSkip meal_type m.meal_type))).map (fun m =>
          { meal_id := m.meal_id, meal_name := m.meal_name,
            score := predict (hybridFeatures ctx m),
            recommendation_type := "hybrid", rating := some m.rating })
      (List.insertionSort (fun a b : Candidate => b.score ≤ a.score) recs).take top_n

/-- The four strategies, in the fixed cascade priority order. -/
inductive Strat where
  | hybrid
  | collaborative
  | content
  | popular
deriving DecidableEq

/-- Instrumentation record for one attempted strategy invocation inside
get_recommendations: which strategy, the count it was asked for, and the raw
and deduplicated lengths of all_recommendations just before the call. -/
structure Attempt where
  strat : Strat
  asked : Nat
  rawBefore : Nat
  uniqBefore : Nat
deriving DecidableEq

/-- The dedup loop of get_recommendations, with its seen_meal_ids set. -/
def dedupFirstAux (seen : List Nat) : List Candidate → List Candidate
  | [] => []
  | r :: rest =>
    if r.meal_id ∈ seen then dedupFirstAux seen rest
    else r :: dedupFirstAux (r.meal_id :: seen) rest

/-- Remove duplicates based on meal_id, first occurrence wins. -/
def dedupFirst (l : List Candidate) : List Candidate :=
  dedupFirstAux [] l

/-- Trace bookkeeping: the attempt record is emitted exactly when the
corresponding strategy gate fired. -/
def gatedAttempt (c : Bool) (e : Attempt) : List Attempt :=
  if c then [e] else []

/-- The strategy cascade of get_recommendations: the gated invocations in
priority order, returning the instrumented attempt trace and the merged
all_recommendations list. -/
def cascade (st : EngineState) (user_id meal_id : Option Nat)
    (meal_type : Option String) (context : Option Ctx) (top_n : Nat) :
    List Attempt × List Candidate :=
  let g1 := user_id.isSome && st.hybrid_model.isSome
  let hy := if g1 then
    get_hybrid_recommendations st (user_id.getD 0) context top_n meal_type else []
  let t1 := gatedAttempt g1 ⟨Strat.hybrid, top_n, 0, 0⟩
  let acc1 := hy
  let g2 := user_id.isSome && st.cf_model.isSome && decide (acc1.length < top_n)
  let cf := if g2 then
    get_collaborative_recommendations st (user_id.getD 0) (top_n - acc1.length) meal_type else []
  let t2 := gatedAttempt g2
    ⟨Strat.collaborative, top_n - acc1.length, acc1.length, (dedupFirst acc1).length⟩
  let acc2 := acc1 ++ cf
  let g3 := meal_id.isSome && st.content_similarity_matrix.isSome && decide (acc2.length < top_n)
  let cb := if g3 then
    get_content_based_recommendations st (meal_id.getD 0) (top_n - acc2.length) meal_type else []
  let t3 := gatedAttempt g3
    ⟨Strat.content, top_n - acc2.length, acc2.length, (dedupFirst acc2).length⟩
  let acc3 := acc2 ++ cb
  let g4 := decide (acc3.length < top_n)
  let pop := if g4 then get_popular_recommendations st (top_n - acc3.length) meal_type else []
  let t4 := gatedAttempt g4
    ⟨Strat.popular, top_n - acc3.length, acc3.length, (dedupFirst acc3).length⟩
  (t1 ++ t2 ++ t3 ++ t4, acc3 ++ pop)

/-- The attempted strategies of one get_recommendations call. -/
def cascadeTrace (st : EngineState) (user_id meal_id : Option Nat)
    (meal_type : Option String) (context : Option Ctx) (top_n : Nat) : List Attempt :=
  (cascade st user_id meal_id meal_type context top_n).1

/-- The merged all_recommendations list of one get_recommendations call. -/
def allRecommendations (st : EngineState) (user_id meal_id : Option Nat)
    (meal_type : Option String) (context : Option Ctx) (top_n : Nat) : List Candidate :=
  (cascade st user_id meal_id meal_type context top_n).2

/-- The success payload of get_recommendations. -/
structure RecResult where
  recommendations : List Candidate
  total_count : Nat
deriving DecidableEq

/-- MealRecommendationEngine.get_recommendations, after a successful load:
cascade, dedup by meal_id, truncate to top_n. -/
def get_recommendations (st : EngineState) (user_id meal_id : Option Nat)
    (meal_type : Option String) (context : Option Ctx) (top_n : Nat) : RecResult :=
  let final := (dedupFirst (allRecommendations st user_id meal_id meal_type context top_n)).take top_n
  { recommendations := final, total_count := final.length }

/-- Number of catalog entries passing the requested meal_type filter. -/
def eligibleCount (st : EngineState) (meal_type : Option String) : Nat :=
  match st.available_meals with
  | none => 0
  | some meals => (meals.filter (fun m => !(mtSkip meal_type m.meal_type))).length

/-- self.recency_half_life_days. -/
def recency_half_life_days : Nat := 30

/-- Exponential decay weight of one usage event of the given age in days:
exp(-(log 2 / max(1, half_life)) * age_days). -/
noncomputable def recencyWeight (age : Nat) : Real :=
  Real.exp (-(Real.log 2 / (max 1 recency_half_life_days : Nat)) * age)

/-- (now - date).days clipped at 0. -/
def eventAge (now : Int) (d : Int) : Nat :=
  (now - d).toNat

/-- The parsed dates of the events of meal m that survive the dropna and the
180-day cutoff filter (recent_df restricted to one meal_id group). -/
def qualifyingDates (now : Int) (events : List UsageEvent) (m : Nat) : List Int :=
  events.filterMap (fun e =>
    match e.date with
    | none => none
    | some d => if e.meal_id = m ∧ now - 180 ≤ d then some d else none)

/-- recent_df.groupby meal_id, weight sum: the meal_usage_scores entry of one
meal (0 when the meal has no qualifying event). -/
noncomputable def usageScoreOf (now : Int) (events : List UsageEvent) (m : Nat) : Real :=
  ((qualifyingDates now events m).map (fun d => recencyWeight (eventAge now d))).sum

/-- history_df meal_id value_counts: the meal_usage_counts entry of one meal,
computed over the full history before any date cleaning. -/
def usageCountOf (events : List UsageEvent) (m : Nat) : Nat :=
  (events.filter (fun e => e.meal_id == m)).length

/-- Fate of one model artifact on disk: absent file (FileNotFoundError,
caught and logged), present but unreadable (any other exception), or loaded. -/
inductive Artifact (A : Type) where
  | missing : Artifact A
  | corrupt : Artifact A
  | ok : A → Artifact A

/-- Everything load_models reads from disk. The usage history artifact
carries the aggregated (counts, scores) maps its rows produce; the score
reals are abstracted as rationals in the engine state. -/
structure LoadInput where
  meals_csv : Artifact (List Meal)
  history : Artifact (List (Nat × Nat) × List (Nat × Rat))
  content_matrix_pkl : Artifact (List (List Rat))
  meal_ids_pkl : Artifact (List Nat)
  meal_names_pkl : Artifact (List String)
  cf_model_pkl : Artifact (Nat → Nat → Rat)
  cf_dataset_pkl : Artifact (List (Nat × Nat) × List (Nat × Nat))
  hybrid_joblib : Artifact (List Rat → Rat)
  tfidf_joblib : Artifact Unit
  scaler_joblib : Artifact Unit
  now_hour : Rat
  now_dow : String
  now_month : Rat

/-- MealRecommendationEngine.load_models. Returns none when the outer
try/except catches an exception (a corrupt artifact; missing files are
handled per-section and only log a warning). The history section has its own
except clause, so a corrupt history never fails the load. The three content
pickles and the two cf pickles load sequentially inside one handler, so a
missing earlier file leaves the later ones unloaded. -/
def load_models (L : LoadInput) : Option EngineState := do
  let catalog ← match L.meals_csv with
    | .corrupt => none
    | .missing => some none
    | .ok ms => some (some ms)
  let usage := match L.history with
    | .ok u => u
    | _ => ([], [])
  let content ← match L.content_matrix_pkl, L.meal_ids_pkl, L.meal_names_pkl with
    | .corrupt, _, _ => none
    | .missing, _, _ => some (none, none, none)
    | .ok m, .corrupt, _ => none
    | .ok m, .missing, _ => some (some m, none, none)
    | .ok m, .ok i, .corrupt => none
    | .ok m, .ok i, .missing => some (some m, some i, none)
    | .ok m, .ok i, .ok nn => some (some m, some i, some nn)
  let cf ← match L.cf_model_pkl, L.cf_dataset_pkl with
    | .corrupt, _ => none
    | .missing, _ => some (none, none)
    | .ok f, .corrupt => none
    | .ok f, .missing => some (some f, none)
    | .ok f, .ok d => some (some f, some d)
  let hyb ← match L.hybrid_joblib with
    | .corrupt => none
    | .missing => some none
    | .ok h => some (some h)
  let _ ← match L.tfidf_joblib, L.scaler_joblib with
    | .corrupt, _ => none
    | .missing, _ => some ()
    | .ok _, .corrupt => none
    | .ok _, _ => some ()
  some
    { available_meals := catalog
      meal_usage_counts := usage.1
      meal_usage_scores := usage.2
      content_similarity_matrix := content.1
      meal_ids := content.2.1
      meal_names := content.2.2
      cf_model := cf.1
      cf_dataset := cf.2
      hybrid_model := hyb
      now_hour := L.now_hour
      now_dow := L.now_dow
      now_month := L.now_month }

/-- The top-level entry get_meal_recommendations on a fresh engine: load,
then recommend; an explicit error value when the load fails. -/
def get_meal_recommendations (L : LoadInput) (user_id meal_id : Option Nat)
    (meal_type : Option String) (context : Option Ctx) (top_n : Nat) :
    Except String RecResult :=
  match load_models L with
  | none => Except.error "Failed to load ML models"
  | some st => Except.ok (get_recommendations st user_id meal_id meal_type context top_n)

/-- The 180-day recency window test on one event, false for unparseable
timestamps. -/
def inWindowB (now : Int) (e : UsageEvent) : Bool :=
  match e.date with
  | some d => decide (now - 180 ≤ d)
  | none => false

/-- A one-meal dinner catalog entry used in concrete scenarios. -/
def mealA : Meal :=
  { meal_id := 1, meal_name := "A", meal_type := "dinner",
    ingredient_count := 1, prep_time := 1, rating := 4, difficulty := "easy" }

/-- A concrete loaded engine: a one-meal catalog, a hybrid model, a
collaborative model whose item universe is the two ids 1 and 9 and whose
user mapping knows only user 1, and a content model over the two off-catalog
ids 2 and 5. -/
def stC1 : EngineState :=
  { available_meals := some [mealA]
    meal_usage_counts := []
    meal_usage_scores := []
    content_similarity_matrix := some [[9, 3], [3, 9]]
    meal_ids := some [2, 5]
    meal_names := some ["B", "C"]
    cf_model := some (fun _ j => (j : Rat))
    cf_dataset := some ([(1, 0)], [(1, 0), (9, 1)])
    hybrid_model := some (fun _ => 1)
    now_hour := 12
    now_dow := "monday"
    now_month := 1 }

/-- C10: the hybrid strategy's output is independent of the user_id argument:
the source binds the parameter but never reads it, so any two present
user ids yield identical candidate lists for equal context, top_n and
meal_type. -/
theorem hybrid_user_independence (st : EngineState) (u1 u2 : Nat)
    (context : Option Ctx) (top_n : Nat) (meal_type : Option String) :
    get_hybrid_recommendations st u1 context top_n meal_type =
      get_hybrid_recommendations st u2 context top_n meal_type := rfl

/-- C5: with the collaborative model and dataset loaded, a user_id absent
from the trained user mapping makes get_collaborative_recommendations return
exactly get_popular_recommendations at the same top_n and meal_type. -/
theorem collaborative_unknown_user_fallback (st : EngineState)
    (user_id top_n : Nat) (meal_type : Option String)
    (p : Nat → Nat → Rat) (ds : List (Nat × Nat) × List (Nat × Nat))
    (hm : st.cf_model = some p) (hd : st.cf_dataset = some ds)
    (hu : alookup ds.1 user_id = none) :
    get_collaborative_recommendations st user_id top_n meal_type =
      get_popular_recommendations st top_n meal_type := by
  simp only [get_collaborative_recommendations, hm, hd, hu]

/-- Witness for C5 at a concrete state: user 7 is unknown to the loaded model
of stC1, and the collaborative call equals the popular call. -/
theorem collaborative_unknown_user_fallback_witness :
    stC1.cf_model.isSome = true ∧ stC1.cf_dataset.isSome = true ∧
    alookup ([(1, 0)] : List (Nat × Nat)) 7 = none ∧
    get_collaborative_recommendations stC1 7 3 none =
      get_popular_recommendations stC1 3 none :=
  ⟨rfl, rfl, rfl,
    collaborative_unknown_user_fallback stC1 7 3 none _ _ rfl rfl rfl⟩

/-- C6: each windowed usage event contributes exp(-(ln 2 / 30) * age_days)
with age clipped at 0, the contributions are summed per meal (an event
prepended to the history adds its own weight to the meal's score), and an
event exactly 30 days old contributes exactly half the weight of an event of
age 0. -/
theorem recency_weight_halflife :
    recencyWeight 30 = recencyWeight 0 / 2 ∧
    recencyWeight 0 = 1 ∧
    ∀ (now : Int) (events : List UsageEvent) (e : UsageEvent) (m : Nat),
      usageScoreOf now (e :: events) m =
        (match e.date with
         | some d =>
           if e.meal_id = m ∧ now - 180 ≤ d then recencyWeight (eventAge now d) else 0
         | none => 0) + usageScoreOf now events m := by
  have hmax : ((max 1 recency_half_life_days : Nat) : Real) = 30 := by
    norm_num [recency_half_life_days]
  have e0 : recencyWeight 0 = 1 := by
    simp [recencyWeight]
  have e30 : recencyWeight 30 = 1 / 2 := by
    unfold recencyWeight
    rw [hmax]
    have harg : -(Real.log 2 / 30) * ((30 : Nat) : Real) = -Real.log 2 := by
      push_cast
      field_simp
    rw [harg, Real.exp_neg, Real.exp_log two_pos]
    norm_num
  refine ⟨by rw [e0, e30], e0, ?_⟩
  intro now events e m
  unfold usageScoreOf qualifyingDates
  rw [List.filterMap_cons]
  cases hd : e.date with
  | none => simp
  | some d =>
    simp only [hd]
    by_cases hq : e.meal_id = m ∧ now - 180 ≤ d
    · rw [if_pos hq, if_pos hq]
      simp
    · rw [if_neg hq, if_neg hq]
      simp

/-- Counterexample for C7: an event whose timestamp does not parse is still
counted by the raw usage count (value_counts runs before the date cleaning),
whereas dropping unparseable events first would count zero. -/
theorem raw_count_unparseable_cex :
    usageCountOf [{ meal_id := 7, user_id := 1, date := none }] 7 = 1 ∧
    usageCountOf
      (([{ meal_id := 7, user_id := 1, date := none }] : List UsageEvent).filter
        (fun e => e.date.isSome)) 7 = 0 := by
  constructor <;> rfl

/-- C7 as amended: only parseable events inside the 180-day window contribute
to the recency score (filtering the history to such events leaves every
meal's score unchanged), while the raw count is taken over the full history:
prepending any event, windowed or not, parseable or not, raises its meal's
count by one. -/
theorem recency_window_count_unwindowed (now : Int) (events : List UsageEvent) (m : Nat) :
    usageScoreOf now events m = usageScoreOf now (events.filter (inWindowB now)) m ∧
    ∀ e : UsageEvent,
      usageCountOf (e :: events) m =
        (if e.meal_id = m then 1 else 0) + usageCountOf events m := by
  constructor
  · suffices h : qualifyingDates now events m =
        qualifyingDates now (events.filter (inWindowB now)) m by
      unfold usageScoreOf
      rw [h]
    induction events with
    | nil => rfl
    | cons e es ih =>
      unfold qualifyingDates at ih ⊢
      rw [List.filter_cons]
      cases hd : e.date with
      | none =>
        have hw : inWindowB now e = false := by simp [inWindowB, hd]
        simp only [List.filterMap_cons, hd, hw, Bool.false_eq_true, if_neg, ite_false]
        exact ih
      | some d =>
        by_cases hwin : now - 180 ≤ d
        · have hw : inWindowB now e = true := by simp [inWindowB, hd, hwin]
          simp only [List.filterMap_cons, hd, hw, ite_true]
          by_cases hq : e.meal_id = m ∧ now - 180 ≤ d
          · simp only [hq, ite_true, ih]
          · simp only [hq, ite_false, ih]
        · have hw : inWindowB now e = false := by simp [inWindowB, hd, hwin]
          have hq : ¬(e.meal_id = m ∧ now - 180 ≤ d) := by
            rintro ⟨-, hc⟩
            exact hwin hc
          simp only [List.filterMap_cons, hd, hw, Bool.false_eq_true, ite_false, hq]
          exact ih
  · intro e
    unfold usageCountOf
    rw [List.filter_cons]
    by_cases he : e.meal_id = m
    · simp [he, Nat.add_comm]
    · simp [he]

lemma dedupFirstAux_length_le (seen : List Nat) (l : List Candidate) :
    (dedupFirstAux seen l).length ≤ l.length := by
  induction l generalizing seen with
  | nil => simp [dedupFirstAux]
  | cons r rest ih =>
    unfold dedupFirstAux
    by_cases h : r.meal_id ∈ seen
    · rw [if_pos h]
      exact le_trans (ih seen) (Nat.le_succ _)
    · rw [if_neg h]
      simpa using ih (r.meal_id :: seen)

lemma dedupFirst_length_le (l : List Candidate) : (dedupFirst l).length ≤ l.length :=
  dedupFirstAux_length_le [] l

/-- Every element of the dedup output whose id is not yet seen is the first
occurrence of its meal_id among the unseen part of the input. -/
lemma mem_dedupFirstAux {seen : List Nat} {l : List Candidate} {x : Candidate}
    (hx : x ∈ dedupFirstAux seen l) :
    x.meal_id ∉ seen ∧ ∃ l1 l2, l = l1 ++ x :: l2 ∧
      ∀ c ∈ l1, c.meal_id = x.meal_id → c.meal_id ∈ seen := by
  induction l generalizing seen with
  | nil => simp [dedupFirstAux] at hx
  | cons r rest ih =>
    unfold dedupFirstAux at hx
    by_cases h : r.meal_id ∈ seen
    · rw [if_pos h] at hx
      obtain ⟨hns, l1, l2, heq, hfw⟩ := ih hx
      refine ⟨hns, r :: l1, l2, by rw [heq, List.cons_append], ?_⟩
      intro c hc hcm
      rcases List.mem_cons.mp hc with rfl | hc'
      · exact h
      · exact hfw c hc' hcm
    · rw [if_neg h] at hx
      rcases List.mem_cons.mp hx with rfl | hx'
      · exact ⟨h, [], rest, rfl, by simp⟩
      · obtain ⟨hns, l1, l2, heq, hfw⟩ := ih hx'
        have hne : x.meal_id ≠ r.meal_id := by
          intro hh
          exact hns (by rw [hh]; exact List.mem_cons_self _ _)
        refine ⟨fun hs => hns (List.mem_cons_of_mem _ hs),
          r :: l1, l2, by rw [heq, List.cons_append], ?_⟩
        intro c hc hcm
        rcases List.mem_cons.mp hc with rfl | hc'
        · exact absurd hcm (Ne.symm hne)
        · have hmem := hfw c hc' hcm
          rcases List.mem_cons.mp hmem with heq2 | hs
          · exact absurd (hcm.symm.trans heq2) hne
          · exact hs

/-- First-occurrence characterisation of the dedup pass. -/
lemma mem_dedupFirst {l : List Candidate} {x : Candidate} (hx : x ∈ dedupFirst l) :
    ∃ l1 l2, l = l1 ++ x :: l2 ∧ ∀ c ∈ l1, c.meal_id ≠ x.meal_id := by
  obtain ⟨-, l1, l2, heq, hfw⟩ := mem_dedupFirstAux hx
  refine ⟨l1, l2, heq, ?_⟩
  intro c hc hcm
  simpa using hfw c hc hcm

lemma dedupFirstAux_id_nodup (seen : List Nat) (l : List Candidate) :
    ((dedupFirstAux seen l).map (fun c => c.meal_id)).Nodup := by
  induction l generalizing seen with
  | nil => simp [dedupFirstAux]
  | cons r rest ih =>
    unfold dedupFirstAux
    by_cases h : r.meal_id ∈ seen
    · rw [if_pos h]
      exact ih seen
    · rw [if_neg h]
      simp only [List.map_cons, List.nodup_cons]
      refine ⟨?_, ih _⟩
      intro hmem
      obtain ⟨y, hy, hyid⟩ := List.mem_map.mp hmem
      exact (mem_dedupFirstAux hy).1 (by rw [hyid]; exact List.mem_cons_self _ _)

/-- C3: the emitted recommendation list has pairwise distinct meal_id values,
and every emitted candidate is the first occurrence of its meal_id in the
merged strategy output, so a meal produced by several strategies keeps the
earliest (highest-priority) strategy's record, tag and score included. -/
theorem result_unique_first_wins (st : EngineState) (user_id meal_id : Option Nat)
    (meal_type : Option String) (context : Option Ctx) (top_n : Nat) :
    (((get_recommendations st user_id meal_id meal_type context top_n).recommendations.map
        (fun c => c.meal_id)).Nodup) ∧
    ∀ r ∈ (get_recommendations st user_id meal_id meal_type context top_n).recommendations,
      ∃ l1 l2,
        allRecommendations st user_id meal_id meal_type context top_n = l1 ++ r :: l2 ∧
        ∀ c ∈ l1, c.meal_id ≠ r.meal_id := by
  constructor
  · show ((List.take top_n (dedupFirst _)).map (fun c => c.meal_id)).Nodup
    rw [List.map_take]
    exact List.Nodup.sublist (List.take_sublist _ _) (dedupFirstAux_id_nodup [] _)
  · intro r hr
    exact mem_dedupFirst (List.mem_of_mem_take hr)

lemma length_insertionSort (r : Meal → Meal → Prop) [DecidableRel r] (l : List Meal) :
    (List.insertionSort r l).length = l.length :=
  (List.perm_insertionSort r l).length_eq

/-- The popular strategy emits at most as many candidates as there are
meal_type-eligible catalog rows. -/
lemma popular_length_le (st : EngineState) (top_n : Nat) (mt : Option String) :
    (get_popular_recommendations st top_n mt).length ≤ eligibleCount st mt := by
  unfold get_popular_recommendations eligibleCount
  cases st.available_meals with
  | none => simp
  | some meals =>
    simp only [List.length_map, List.length_take, length_insertionSort]
    exact min_le_right _ _

/-- C2 as amended: the result is never longer than top_n; and on the
popularity-only path (no user_id and no meal_id, so only the catalog-backed
popular strategy can contribute) it is also never longer than the number of
meal_type-eligible catalog entries. -/
theorem result_length_bounds (st : EngineState) (user_id meal_id : Option Nat)
    (meal_type : Option String) (context : Option Ctx) (top_n : Nat) :
    (get_recommendations st user_id meal_id meal_type context top_n).recommendations.length
        ≤ top_n ∧
    (get_recommendations st none none meal_type context top_n).recommendations.length
        ≤ eligibleCount st meal_type := by
  constructor
  · exact List.length_take_le _ _
  · show (List.take top_n (dedupFirst
      (allRecommendations st none none meal_type context top_n))).length ≤ _
    have hall : allRecommendations st none none meal_type context top_n =
        (if decide (0 < top_n) then get_popular_recommendations st (top_n - 0) meal_type
         else []) := by
      simp [allRecommendations, cascade]
    refine le_trans (List.length_take_le' _ _) (le_trans (dedupFirst_length_le _) ?_)
    rw [hall]
    split
    · exact popular_length_le st _ _
    · simp

/-- Counterexample for C2: with the loaded stC1 engine the collaborative
strategy emits meal 9, which is absent from the one-entry catalog, so the
final result has 2 recommendations against 1 eligible catalog entry. -/
theorem result_catalog_bound_cex :
    (get_recommendations stC1 (some 1) none none none 2).recommendations.length = 2 ∧
    eligibleCount stC1 none = 1 := by
  constructor <;> rfl

lemma attempt_bounds (n : Nat) (acc : List Candidate) (hlt : acc.length < n) :
    (dedupFirst acc).length ≤ acc.length ∧ (dedupFirst acc).length < n ∧
      n - acc.length ≤ n - (dedupFirst acc).length :=
  ⟨dedupFirst_length_le acc, lt_of_le_of_lt (dedupFirst_length_le acc) hlt,
    Nat.sub_le_sub_left (dedupFirst_length_le acc) n⟩

lemma map_gatedAttempt_sublist (c : Bool) (e : Attempt) (x : Strat) (hx : e.strat = x) :
    ((gatedAttempt c e).map (fun a => a.strat)).Sublist [x] := by
  unfold gatedAttempt
  split
  · simp [hx]
  · simp

lemma mem_gatedAttempt {c : Bool} {e a : Attempt} (h : a ∈ gatedAttempt c e) :
    c = true ∧ a = e := by
  unfold gatedAttempt at h
  split at h
  · simpa using ⟨by assumption, by simpa using h⟩
  · simp at h

/-- C1 as amended: strategies are attempted in the fixed priority order
hybrid, collaborative, content-based, popular, each only when its required
inputs are present and the running count of collected candidates — raw, with
cross-strategy duplicates included — is below top_n (so in particular the
unique count is below top_n); each attempted strategy is asked for exactly
top_n minus the raw collected count, which never exceeds top_n minus the
unique count. -/
theorem cascade_priority_gating (st : EngineState) (user_id meal_id : Option Nat)
    (meal_type : Option String) (context : Option Ctx) (top_n : Nat) (h : 0 < top_n) :
    ((cascadeTrace st user_id meal_id meal_type context top_n).map
        (fun a => a.strat)).Sublist
      [Strat.hybrid, Strat.collaborative, Strat.content, Strat.popular] ∧
    ∀ a ∈ cascadeTrace st user_id meal_id meal_type context top_n,
      a.asked = top_n - a.rawBefore ∧
      a.uniqBefore ≤ a.rawBefore ∧
      a.uniqBefore < top_n ∧
      a.asked ≤ top_n - a.uniqBefore ∧
      ((a.strat = Strat.hybrid ∨ a.strat = Strat.collaborative) → user_id.isSome = true) ∧
      (a.strat = Strat.content → meal_id.isSome = true) := by
  simp only [cascadeTrace, cascade]
  constructor
  · rw [List.map_append, List.map_append, List.map_append]
    have htgt : [Strat.hybrid, Strat.collaborative, Strat.content, Strat.popular] =
        (([Strat.hybrid] ++ [Strat.collaborative]) ++ [Strat.content]) ++ [Strat.popular] :=
      rfl
    rw [htgt]
    exact List.Sublist.append
      (List.Sublist.append
        (List.Sublist.append (map_gatedAttempt_sublist _ _ _ rfl)
          (map_gatedAttempt_sublist _ _ _ rfl))
        (map_gatedAttempt_sublist _ _ _ rfl))
      (map_gatedAttempt_sublist _ _ _ rfl)
  · intro a ha
    simp only [List.mem_append] at ha
    rcases ha with ((h1 | h2) | h3) | h4
    · obtain ⟨hg, rfl⟩ := mem_gatedAttempt h1
      have hu : user_id.isSome = true := (Bool.and_eq_true_iff.mp hg).1
      refine ⟨(Nat.sub_zero top_n).symm, le_refl 0, h, ?_, fun _ => hu, ?_⟩
      · simp
      · intro hc
        cases hc
    · obtain ⟨hg, rfl⟩ := mem_gatedAttempt h2
      have hg2 := Bool.and_eq_true_iff.mp hg
      have hu : user_id.isSome = true := (Bool.and_eq_true_iff.mp hg2.1).1
      have hlt : _ < top_n := of_decide_eq_true hg2.2
      obtain ⟨hle, hltu, hsub⟩ := attempt_bounds top_n _ hlt
      exact ⟨rfl, hle, hltu, hsub, fun _ => hu, fun hc => by cases hc⟩
    · obtain ⟨hg, rfl⟩ := mem_gatedAttempt h3
      have hg2 := Bool.and_eq_true_iff.mp hg
      have hm : meal_id.isSome = true := (Bool.and_eq_true_iff.mp hg2.1).1
      have hlt : _ < top_n := of_decide_eq_true hg2.2
      obtain ⟨hle, hltu, hsub⟩ := attempt_bounds top_n _ hlt
      refine ⟨rfl, hle, hltu, hsub, ?_, fun _ => hm⟩
      rintro (hc | hc) <;> cases hc
    · obtain ⟨hg, rfl⟩ := mem_gatedAttempt h4
      have hlt : _ < top_n := of_decide_eq_true hg
      obtain ⟨hle, hltu, hsub⟩ := attempt_bounds top_n _ hlt
      refine ⟨rfl, hle, hltu, hsub, ?_, ?_⟩
      · rintro (hc | hc) <;> cases hc
      · intro hc
        cases hc

/-- Witness for C1's amended theorem at the concrete stC1 request. -/
theorem cascade_priority_gating_witness :
    0 < 4 ∧
    (((cascadeTrace stC1 (some 1) (some 2) none none 4).map
        (fun a => a.strat)).Sublist
      [Strat.hybrid, Strat.collaborative, Strat.content, Strat.popular] ∧
    ∀ a ∈ cascadeTrace stC1 (some 1) (some 2) none none 4,
      a.asked = 4 - a.rawBefore ∧
      a.uniqBefore ≤ a.rawBefore ∧
      a.uniqBefore < 4 ∧
      a.asked ≤ 4 - a.uniqBefore ∧
      ((a.strat = Strat.hybrid ∨ a.strat = Strat.collaborative) →
        (some 1 : Option Nat).isSome = true) ∧
      (a.strat = Strat.content → (some 2 : Option Nat).isSome = true)) :=
  ⟨by decide, cascade_priority_gating stC1 (some 1) (some 2) none none 4 (by decide)⟩

/-- Counterexample for C1: in the stC1 scenario the collaborative strategy
re-emits meal 1 already produced by hybrid, so before the content-based call
the raw count is 3 but the unique count is 2; content-based is asked for
4 - 3 = 1, not the unique-count deficit 4 - 2 = 2 that the claim states. -/
theorem cascade_unique_deficit_cex :
    (cascadeTrace stC1 (some 1) (some 2) none none 4).map
        (fun a => (a.strat, a.asked, a.uniqBefore)) =
      [(Strat.hybrid, 4, 0), (Strat.collaborative, 3, 1), (Strat.content, 1, 2)] ∧
    (1 : Nat) ≠ 4 - 2 := by
  constructor
  · decide
  · decide

/-- C9: get_meal_recommendations returns the explicit error value exactly
when load_models fails; in every other case it returns a well-formed result
computed by the cascade, whose count field matches the list and whose length
respects top_n. -/
theorem load_failure_error_result (L : LoadInput) (user_id meal_id : Option Nat)
    (meal_type : Option String) (context : Option Ctx) (top_n : Nat) :
    (load_models L = none ∧
      get_meal_recommendations L user_id meal_id meal_type context top_n =
        Except.error "Failed to load ML models") ∨
    (∃ st r, load_models L = some st ∧
      get_meal_recommendations L user_id meal_id meal_type context top_n = Except.ok r ∧
      r = get_recommendations st user_id meal_id meal_type context top_n ∧
      r.total_count = r.recommendations.length ∧
      r.recommendations.length ≤ top_n) := by
  cases hL : load_models L with
  | none =>
    left
    exact ⟨rfl, by simp [get_meal_recommendations, hL]⟩
  | some st =>
    right
    refine ⟨st, get_recommendations st user_id meal_id meal_type context top_n,
      rfl, by simp [get_meal_recommendations, hL], rfl, rfl, ?_⟩
    exact List.length_take_le _ _

lemma lexGe_total (a b : Rat × Nat × Rat) : lexGe a b ∨ lexGe b a := by
  unfold lexGe
  rcases lt_trichotomy a.1 b.1 with h | h | h
  · right
    left
    exact h
  · rcases lt_trichotomy a.2.1 b.2.1 with h2 | h2 | h2
    · right
      right
      exact ⟨h.symm, Or.inl h2⟩
    · rcases le_total b.2.2 a.2.2 with h3 | h3
      · left
        right
        exact ⟨h, Or.inr ⟨h2, h3⟩⟩
      · right
        right
        exact ⟨h.symm, Or.inr ⟨h2.symm, h3⟩⟩
    · left
      right
      exact ⟨h, Or.inl h2⟩
  · left
    left
    exact h

lemma lexGe_trans (a b c : Rat × Nat × Rat) (hab : lexGe a b) (hbc : lexGe b c) :
    lexGe a c := by
  unfold lexGe at hab hbc ⊢
  rcases hab with h1 | ⟨e1, h1⟩
  · rcases hbc with h2 | ⟨e2, h2⟩
    · exact Or.inl (lt_trans h2 h1)
    · exact Or.inl (e2 ▸ h1)
  · rcases hbc with h2 | ⟨e2, h2⟩
    · exact Or.inl (lt_of_lt_of_le h2 (le_of_eq e1.symm))
    · refine Or.inr ⟨e1.trans e2, ?_⟩
      rcases h1 with g1 | ⟨f1, g1⟩
      · rcases h2 with g2 | ⟨f2, g2⟩
        · exact Or.inl (lt_trans g2 g1)
        · exact Or.inl (f2 ▸ g1)
      · rcases h2 with g2 | ⟨f2, g2⟩
        · exact Or.inl (lt_of_lt_of_le g2 (le_of_eq f1.symm))
        · exact Or.inr ⟨f1.trans f2, le_trans g2 g1⟩

/-- The claim's ranking relation on emitted candidates: descending
lexicographic comparison of (stored recency score, stored raw count, rating). -/
def candLexGe (st : EngineState) (a b : Candidate) : Prop :=
  lexGe (usageScoreSt st a.meal_id, usageCountSt st a.meal_id, a.rating.getD 0)
    (usageScoreSt st b.meal_id, usageCountSt st b.meal_id, b.rating.getD 0)

lemma pairwise_sorted_take (key : Meal → Rat × Nat × Rat) (l : List Meal) (n : Nat) :
    List.Pairwise (fun a b => lexGe (key a) (key b))
      (List.take n (List.insertionSort (fun a b => lexGe (key a) (key b)) l)) := by
  haveI : IsTotal Meal (fun a b => lexGe (key a) (key b)) :=
    ⟨fun a b => lexGe_total (key a) (key b)⟩
  haveI : IsTrans Meal (fun a b => lexGe (key a) (key b)) :=
    ⟨fun a b c => lexGe_trans (key a) (key b) (key c)⟩
  exact List.Pairwise.take (List.sorted_insertionSort _ l)

lemma sum_map_nonneg_all_zero {l : List Meal} {f : Meal → Rat}
    (hnn : ∀ x ∈ l, 0 ≤ f x) (hsum : (l.map f).sum = 0) : ∀ x ∈ l, f x = 0 := by
  induction l with
  | nil => simp
  | cons a t ih =>
    simp only [List.map_cons, List.sum_cons] at hsum
    have ht : 0 ≤ (t.map f).sum := by
      apply List.sum_nonneg
      intro x hx
      obtain ⟨y, hy, rfl⟩ := List.mem_map.mp hx
      exact hnn y (List.mem_cons_of_mem _ hy)
    have ha : 0 ≤ f a := hnn a (List.mem_cons_self _ _)
    have hfa : f a = 0 := le_antisymm (by linarith) ha
    have hts : (t.map f).sum = 0 := by linarith
    intro x hx
    rcases List.mem_cons.mp hx with rfl | hx'
    · exact hfa
    · exact ih (fun y hy => hnn y (List.mem_cons_of_mem _ hy)) hts x hx'

lemma mem_take_sort_filter {key : Meal → Rat × Nat × Rat} {meals : List Meal}
    {p : Meal → Bool} {n : Nat} {x : Meal}
    (hx : x ∈ List.take n
      (List.insertionSort (fun a b => lexGe (key a) (key b)) (meals.filter p))) :
    x ∈ meals := by
  have hx1 := List.mem_of_mem_take hx
  have hx2 := (List.perm_insertionSort _ _).mem_iff.mp hx1
  exact (List.mem_filter.mp hx2).1

lemma alookup_nonneg {l : List (Nat × Rat)} (h : ∀ p ∈ l, 0 ≤ p.2) (m : Nat) :
    0 ≤ (alookup l m).getD 0 := by
  unfold alookup
  cases hf : l.find? (fun p => p.1 == m) with
  | none => simp
  | some p => simpa using h p (List.mem_of_find?_eq_some hf)

/-- C4: with the aggregator invariant that all stored recency scores are
nonnegative, the popular strategy's output is sorted by the descending
lexicographic key (recency score, raw count, rating); in particular the
stored recency scores are non-increasing along the output, so a strictly
higher-recency meal is always ranked above a lower one; meals absent from
the usage maps read back score 0 and count 0. -/
theorem popular_lex_ranking (st : EngineState) (top_n : Nat) (meal_type : Option String)
    (hnn : ∀ m, 0 ≤ usageScoreSt st m) :
    List.Pairwise (candLexGe st) (get_popular_recommendations st top_n meal_type) ∧
    List.Pairwise (fun a b => usageScoreSt st b.meal_id ≤ usageScoreSt st a.meal_id)
      (get_popular_recommendations st top_n meal_type) ∧
    (∀ m, alookup st.meal_usage_scores m = none → usageScoreSt st m = 0) ∧
    (∀ m, alookup st.meal_usage_counts m = none → usageCountSt st m = 0) := by
  have key : List.Pairwise (candLexGe st) (get_popular_recommendations st top_n meal_type) := by
    unfold get_popular_recommendations
    cases hm : st.available_meals with
    | none => simp
    | some meals =>
      simp only
      by_cases hP : (meals.map (fun m => usageScoreSt st m.meal_id)).sum = 0 ∧
          0 < (meals.map (fun m => usageCountSt st m.meal_id)).sum
      · rw [if_pos hP]
        have hz : ∀ x ∈ meals, usageScoreSt st x.meal_id = 0 :=
          sum_map_nonneg_all_zero (fun x _ => hnn x.meal_id) hP.1
        rw [List.pairwise_map]
        have hs := pairwise_sorted_take
          (popKey (fun mid => ((usageCountSt st mid : Nat) : Rat)) st)
          (meals.filter (fun m => !(mtSkip meal_type m.meal_type))) top_n
        refine hs.imp_of_mem ?_
        intro a b ha hb hab
        have hza := hz a (mem_take_sort_filter ha)
        have hzb := hz b (mem_take_sort_filter hb)
        unfold popKey lexGe at hab
        rcases hab with hlt | ⟨heq, hrest⟩
        · exact Or.inr ⟨hza.trans hzb.symm, Or.inl (Nat.cast_lt.mp hlt)⟩
        · exact Or.inr ⟨hza.trans hzb.symm, hrest⟩
      · rw [if_neg hP]
        rw [List.pairwise_map]
        have hs := pairwise_sorted_take (popKey (fun mid => usageScoreSt st mid) st)
          (meals.filter (fun m => !(mtSkip meal_type m.meal_type))) top_n
        refine hs.imp ?_
        intro a b hab
        exact hab
  refine ⟨key, ?_, ?_, ?_⟩
  · refine key.imp ?_
    intro a b hab
    unfold candLexGe lexGe at hab
    rcases hab with h | ⟨e, -⟩
    · exact le_of_lt h
    · exact le_of_eq e.symm
  · intro m hmn
    unfold usageScoreSt
    rw [hmn]
    rfl
  · intro m hmn
    unfold usageCountSt
    rw [hmn]
    rfl

/-- The catalog and usage data of the spec's popularity example scenario,
with integer-valued scores. -/
def stC4 : EngineState :=
  { available_meals := some
      [{ meal_id := 1, meal_name := "M1", meal_type := "dinner",
         ingredient_count := 1, prep_time := 1, rating := 4, difficulty := "easy" },
       { meal_id := 2, meal_name := "M2", meal_type := "dinner",
         ingredient_count := 1, prep_time := 1, rating := 5, difficulty := "easy" },
       { meal_id := 3, meal_name := "M3", meal_type := "lunch",
         ingredient_count := 1, prep_time := 1, rating := 5, difficulty := "easy" }]
    meal_usage_counts := [(1, 5), (2, 3)]
    meal_usage_scores := [(1, 2), (2, 2)]
    content_similarity_matrix := none
    meal_ids := none
    meal_names := none
    cf_model := none
    cf_dataset := none
    hybrid_model := none
    now_hour := 12
    now_dow := "monday"
    now_month := 1 }

/-- Witness for C4 at the spec's example scenario state. -/
theorem popular_lex_ranking_witness :
    (∀ m, 0 ≤ usageScoreSt stC4 m) ∧
    (List.Pairwise (candLexGe stC4) (get_popular_recommendations stC4 2 (some "dinner")) ∧
     List.Pairwise (fun a b => usageScoreSt stC4 b.meal_id ≤ usageScoreSt stC4 a.meal_id)
       (get_popular_recommendations stC4 2 (some "dinner")) ∧
     (∀ m, alookup stC4.meal_usage_scores m = none → usageScoreSt stC4 m = 0) ∧
     (∀ m, alookup stC4.meal_usage_counts m = none → usageCountSt stC4 m = 0)) := by
  have hnn : ∀ m, 0 ≤ usageScoreSt stC4 m := fun m => alookup_nonneg (by decide) m
  exact ⟨hnn, popular_lex_ranking stC4 2 (some "dinner") hnn⟩

lemma idxLe_total (s : List Rat) : ∀ i j, idxLe s i j ∨ idxLe s j i := by
  intro i j
  unfold idxLe
  rcases lt_trichotomy (s.getD i 0) (s.getD j 0) with h | h | h
  · left
    left
    exact h
  · rcases le_total i j with h2 | h2
    · left
      right
      exact ⟨h, h2⟩
    · right
      right
      exact ⟨h.symm, h2⟩
  · right
    left
    exact h

lemma idxLe_trans (s : List Rat) : ∀ i j k, idxLe s i j → idxLe s j k → idxLe s i k := by
  intro i j k hij hjk
  unfold idxLe at hij hjk ⊢
  rcases hij with h1 | ⟨e1, h1⟩
  · rcases hjk with h2 | ⟨e2, h2⟩
    · exact Or.inl (lt_trans h1 h2)
    · exact Or.inl (e2 ▸ h1)
  · rcases hjk with h2 | ⟨e2, h2⟩
    · exact Or.inl (lt_of_le_of_lt (le_of_eq e1) h2)
    · exact Or.inr ⟨e1.trans e2, le_trans h1 h2⟩

/-- The reversed stable argsort is sorted for the descending index relation. -/
lemma pairwise_argsort_reverse (s : List Rat) :
    List.Pairwise (fun i j => idxLe s j i) (argsortAsc s).reverse := by
  haveI : IsTotal Nat (idxLe s) := ⟨idxLe_total s⟩
  haveI : IsTrans Nat (idxLe s) := ⟨idxLe_trans s⟩
  exact List.pairwise_reverse.mpr (List.sorted_insertionSort _ _)

lemma mem_argsort_reverse {s : List Rat} {i : Nat} :
    i ∈ (argsortAsc s).reverse ↔ i < s.length := by
  rw [List.mem_reverse]
  unfold argsortAsc
  rw [(List.perm_insertionSort _ _).mem_iff]
  exact List.mem_range

lemma nodup_argsort_reverse (s : List Rat) : (argsortAsc s).reverse.Nodup := by
  rw [List.nodup_reverse]
  exact ((List.perm_insertionSort _ _).nodup_iff).mpr (List.nodup_range _)

/-- A successful loop-body build pins down the candidate's id and score. -/
lemma contentBuild_some {st : EngineState} {mt : Option String} {ids : List Nat}
    {sims : List Rat} {i : Nat} {c : Candidate}
    (h : contentBuild st mt ids sims i = some c) :
    i < ids.length ∧ c.meal_id = ids.getD i 0 ∧ c.score = sims.getD i 0 := by
  unfold contentBuild at h
  by_cases hlt : i < ids.length
  · rw [if_pos hlt] at h
    refine ⟨hlt, ?_⟩
    repeat'
      first
        | (injection h with h2
           subst h2
           exact ⟨rfl, rfl⟩)
        | (exact Option.noConfusion h)
        | split at h
        | simp only [] at h
  · rw [if_neg hlt] at h
    simp at h

lemma indexOf_getD {ids : List Nat} (hnd : ids.Nodup) {j : Nat} (hj : j < ids.length) :
    ids.indexOf (ids.getD j 0) = j := by
  rw [List.getD_eq_getElem ids 0 hj]
  have hmem : ids[j] ∈ ids := List.getElem_mem hj
  have hk : ids.indexOf ids[j] < ids.length := List.indexOf_lt_length.mpr hmem
  have hg : ids[ids.indexOf ids[j]] = ids[j] := List.getElem_indexOf hk
  exact (List.Nodup.getElem_inj_iff hnd).mp hg

/-- A content model whose reference row has a similarity tie at the maximum:
ids 10, 20, 30; row of meal 10 is (9, 9, 2). -/
def stC8 : EngineState :=
  { available_meals := none
    meal_usage_counts := []
    meal_usage_scores := []
    content_similarity_matrix := some [[9, 9, 2], [9, 9, 2], [2, 2, 9]]
    meal_ids := some [10, 20, 30]
    meal_names := some ["x", "y", "z"]
    cf_model := none
    cf_dataset := none
    hybrid_model := none
    now_hour := 12
    now_dow := "monday"
    now_month := 1 }

/-- Counterexample for C8: when another meal ties the reference's
self-similarity, the slice [1:top_n+1] of the reversed argsort drops that
other meal instead of the reference, so the reference meal 10 appears in its
own results (and the tie is resolved toward the later catalog index 30, not
catalog order). -/
theorem content_self_inclusion_cex :
    (get_content_based_recommendations stC8 10 2 none).map (fun c => c.meal_id) =
      [10, 30] ∧
    10 ∈ (get_content_based_recommendations stC8 10 2 none).map (fun c => c.meal_id) := by
  constructor
  · decide
  · decide

/-- C8 as amended: when the reference meal's self-similarity is strictly
greater than every other entry of its row (no tie at the maximum), the
reference is never included in its own results, and the results are ranked
by descending similarity with ties broken by reverse catalog order
(larger original index first), not catalog order. -/
theorem content_ranking_unique_max (st : EngineState) (meal_id top_n : Nat)
    (mt : Option String) (matrix : List (List Rat)) (ids : List Nat)
    (hm : st.content_similarity_matrix = some matrix)
    (hi : st.meal_ids = some ids)
    (hmem : meal_id ∈ ids)
    (hnd : ids.Nodup)
    (hlen : (matrix.getD (ids.indexOf meal_id) []).length = ids.length)
    (hmax : ∀ j < ids.length, j ≠ ids.indexOf meal_id →
      (matrix.getD (ids.indexOf meal_id) []).getD j 0 <
        (matrix.getD (ids.indexOf meal_id) []).getD (ids.indexOf meal_id) 0) :
    (∀ c ∈ get_content_based_recommendations st meal_id top_n mt, c.meal_id ≠ meal_id) ∧
    List.Pairwise (fun c c' : Candidate =>
        c'.score < c.score ∨
        (c.score = c'.score ∧ ids.indexOf c'.meal_id ≤ ids.indexOf c.meal_id))
      (get_content_based_recommendations st meal_id top_n mt) := by
  set refIdx := ids.indexOf meal_id with hrefdef
  set sims := matrix.getD refIdx [] with hsimsdef
  have hdef : get_content_based_recommendations st meal_id top_n mt =
      ((contentOrder sims top_n).filterMap (contentBuild st mt ids sims)).take top_n := by
    unfold get_content_based_recommendations
    simp only [hm, hi]
    rw [if_pos hmem]
  have href_lt : refIdx < ids.length := List.indexOf_lt_length.mpr hmem
  have hrefs : refIdx < sims.length := by
    rw [hlen]
    exact href_lt
  have hmemord : refIdx ∈ (argsortAsc sims).reverse := mem_argsort_reverse.mpr hrefs
  have hpw := pairwise_argsort_reverse sims
  have hnodup := nodup_argsort_reverse sims
  cases hord : (argsortAsc sims).reverse with
  | nil =>
    rw [hord] at hmemord
    simp at hmemord
  | cons a rest =>
    rw [hord] at hmemord hpw hnodup
    have ha : a = refIdx := by
      by_contra hne
      have hrmem : refIdx ∈ rest := by
        rcases List.mem_cons.mp hmemord with h | h
        · exact absurd h.symm hne
        · exact h
      have hrel := List.rel_of_pairwise_cons hpw hrmem
      have halt : a < ids.length := by
        have : a ∈ (argsortAsc sims).reverse := by
          rw [hord]
          exact List.mem_cons_self _ _
        rw [← hlen]
        exact mem_argsort_reverse.mp this
      have hlt := hmax a halt (fun he => hne he)
      rcases hrel with h | ⟨he, -⟩
      · exact absurd hlt (lt_asymm h)
      · exact lt_irrefl _ (he ▸ hlt)
    subst ha
    have hnotin : refIdx ∉ rest := (List.nodup_cons.mp hnodup).1
    have hcont : contentOrder sims top_n = rest.take top_n := by
      unfold contentOrder
      rw [hord]
      rfl
    constructor
    · intro c hc hceq
      rw [hdef] at hc
      obtain ⟨i, hi_mem, hbuild⟩ := List.mem_filterMap.mp (List.mem_of_mem_take hc)
      rw [hcont] at hi_mem
      have hirest : i ∈ rest := List.mem_of_mem_take hi_mem
      have hne : i ≠ refIdx := fun he => hnotin (he ▸ hirest)
      obtain ⟨hilt, hcid, -⟩ := contentBuild_some hbuild
      apply hne
      have hgd : ids.getD i 0 = meal_id := hcid ▸ hceq
      have : ids.indexOf (ids.getD i 0) = i := indexOf_getD hnd hilt
      rw [hgd] at this
      rw [← this]
    · rw [hdef]
      apply List.Pairwise.take
      rw [List.pairwise_filterMap, hcont]
      refine List.Pairwise.imp ?_ (List.Pairwise.take hpw.of_cons)
      intro i j hij c hc c' hc'
      rw [Option.mem_def] at hc hc'
      obtain ⟨hilt, hcid, hcs⟩ := contentBuild_some hc
      obtain ⟨hjlt, hcid2, hcs2⟩ := contentBuild_some hc'
      unfold idxLe at hij
      rcases hij with hlt | ⟨heq, hji⟩
      · left
        rw [hcs, hcs2]
        exact hlt
      · right
        refine ⟨?_, ?_⟩
        · rw [hcs, hcs2]
          exact heq.symm
        · rw [hcid, hcid2, indexOf_getD hnd hilt, indexOf_getD hnd hjlt]
          exact hji

/-- Witness for C8's amended theorem: in stC1's content model meal 2's
self-similarity 9 strictly dominates its row, so the theorem applies. -/
theorem content_ranking_unique_max_witness :
    (stC1.content_similarity_matrix = some [[9, 3], [3, 9]] ∧
     stC1.meal_ids = some [2, 5] ∧
     2 ∈ ([2, 5] : List Nat) ∧
     ([2, 5] : List Nat).Nodup ∧
     ((([[9, 3], [3, 9]] : List (List Rat))).getD (([2, 5] : List Nat).indexOf 2) []).length =
       ([2, 5] : List Nat).length ∧
     (∀ j < ([2, 5] : List Nat).length, j ≠ ([2, 5] : List Nat).indexOf 2 →
       (([[9, 3], [3, 9]] : List (List Rat)).getD (([2, 5] : List Nat).indexOf 2) []).getD j 0 <
         (([[9, 3], [3, 9]] : List (List Rat)).getD (([2, 5] : List Nat).indexOf 2) []).getD
           (([2, 5] : List Nat).indexOf 2) 0)) ∧
    ((∀ c ∈ get_content_based_recommendations stC1 2 5 none, c.meal_id ≠ 2) ∧
     List.Pairwise (fun c c' : Candidate =>
        c'.score < c.score ∨
        (c.score = c'.score ∧
          ([2, 5] : List Nat).indexOf c'.meal_id ≤ ([2, 5] : List Nat).indexOf c.meal_id))
      (get_content_based_recommendations stC1 2 5 none)) :=
  ⟨⟨rfl, rfl, by decide, by decide, by decide, by decide⟩,
    content_ranking_unique_max stC1 2 5 none [[9, 3], [3, 9]] [2, 5] rfl rfl
      (by decide) (by decide) (by decide) (by decide)⟩

